import Mathlib

/-!
# Verification of the LocalDocs indexing/retrieval core of gpt4all-chat

Shallow embedding of `src/gpt4all-chat/database.cpp` (the document
scanning, chunking, embedding-batch and retrieval engine) together with
proofs and refutations of the specification claims about it.

Conventions:
* Qt containers become Lean lists; SQL tables become lists of rows.
* C++ `int` arithmetic is modelled with `Nat`/`Int`; the quantities
  involved (character counts, word counts, row ids) are small, so no
  wrap-around modelling is needed.
* Loops are modelled by structural recursion on an explicit fuel that is
  provably sufficient (each loop iteration consumes at least one input
  character), so that all definitions evaluate by `decide`/`rfl`.
-/

namespace LocalDocs

/-! ## The chunker: `Database::chunkStream` (database.cpp:841-910)

`chunkStream` repeatedly does `stream >> word` (Qt: skip whitespace, read a
maximal run of non-whitespace), accumulates the words, and flushes the
accumulated words as one chunk as soon as
`charCount + words.size() - 1 >= m_chunkSize` or the stream ends; it stops
when the stream ends or, if `maxChunks > 0`, after `maxChunks` flushed
chunks, and returns the stream position reached.

The character stream is a `List Char` plus a position; the whitespace
class of `QChar::isSpace` is abstracted as a predicate `isSp`.  A chunk is
kept as its list of words (the row stores `words.join " "`, whose content
is determined by the word list). -/

/-- One `stream >> word` step of `QTextStream`: starting at `pos`, skip
characters satisfying `isSp`, then read a maximal run of characters not
satisfying `isSp`.  Returns the word and the new stream position. -/
def readWord (isSp : Char → Bool) (text : List Char) (pos : Nat) : List Char × Nat :=
  let sk := ((text.drop pos).takeWhile isSp).length
  let w := ((text.drop pos).dropWhile isSp).takeWhile (fun c => !isSp c)
  (w, pos + sk + w.length)

/-- Sum of the word lengths of a chunk (the final value of `charCount`
contributed by those words in `chunkStream`). -/
def sumLens (c : List (List Char)) : Nat := (c.map List.length).sum

theorem takeWhile_dropWhile_length (p : Char → Bool) (l : List Char) :
    (l.takeWhile p).length + (l.dropWhile p).length = l.length := by
  have h := congrArg List.length (List.takeWhile_append_dropWhile (p := p) (l := l))
  rwa [List.length_append] at h

theorem dropWhile_head_false (p : Char → Bool) :
    ∀ (l : List Char) (c : Char) (rest : List Char),
      l.dropWhile p = c :: rest → p c = false := by
  intro l
  induction l with
  | nil => intro c rest h; simp at h
  | cons a t ih =>
    intro c rest h
    by_cases ha : p a
    · rw [List.dropWhile_cons_of_pos ha] at h
      exact ih c rest h
    · rw [List.dropWhile_cons_of_neg ha] at h
      cases h
      simpa using ha

theorem readWord_pos_le (isSp : Char → Bool) (text : List Char) (pos : Nat)
    (h : pos ≤ text.length) : (readWord isSp text pos).2 ≤ text.length := by
  have hsplit := takeWhile_dropWhile_length isSp (text.drop pos)
  have hw : (((text.drop pos).dropWhile isSp).takeWhile (fun c => !isSp c)).length
      ≤ ((text.drop pos).dropWhile isSp).length := List.Sublist.length_le (List.takeWhile_sublist _)
  simp only [readWord]
  have hd : (text.drop pos).length = text.length - pos := by simp
  omega

theorem readWord_pos_lt (isSp : Char → Bool) (text : List Char) (pos : Nat)
    (h : (readWord isSp text pos).1 ≠ []) : pos < (readWord isSp text pos).2 := by
  simp only [readWord] at h ⊢
  have : (((text.drop pos).dropWhile isSp).takeWhile (fun c => !isSp c)).length ≠ 0 := by
    simpa using h
  omega

theorem readWord_lt_length (isSp : Char → Bool) (text : List Char) (pos : Nat)
    (h : (readWord isSp text pos).1 ≠ []) : pos < text.length := by
  by_contra hge
  have hdrop : text.drop pos = [] := List.drop_eq_nil_of_le (by omega)
  simp [readWord, hdrop] at h

theorem readWord_nil_ge (isSp : Char → Bool) (text : List Char) (pos : Nat)
    (h : (readWord isSp text pos).1 = []) : text.length ≤ (readWord isSp text pos).2 := by
  simp only [readWord] at h ⊢
  rcases hdw : (text.drop pos).dropWhile isSp with _ | ⟨c, rest⟩
  · -- everything from `pos` on is whitespace: the skip reaches the end
    have hsplit := takeWhile_dropWhile_length isSp (text.drop pos)
    rw [hdw] at hsplit
    have hd : (text.drop pos).length = text.length - pos := by simp
    simp only [hdw, List.takeWhile_nil, List.length_nil] at hsplit ⊢
    by_cases hp : pos ≤ text.length
    · omega
    · have : text.drop pos = [] := List.drop_eq_nil_of_le (by omega)
      simp [this] at hsplit ⊢
      omega
  · -- the first non-skipped character fails `isSp`, so the word is nonempty
    exfalso
    have hc : isSp c = false := dropWhile_head_false isSp _ c rest hdw
    rw [hdw] at h
    simp [List.takeWhile_cons, hc] at h

/-- The `for (;;)` loop of `Database::chunkStream` (database.cpp:853-899).
State: stream position `pos`, accumulated `words`, their `charCount`, and
the number of `chunks` flushed so far.  Each iteration reads one word,
appends it (if nonempty) and bumps `charCount`; when the stream ends or
`charCount + words.size() - 1 >= chunkSize` the accumulated words are
flushed as one chunk (the C++ inserts the joined words as a row and queues
it for embedding); the loop stops at end of stream or, when
`maxChunks > 0`, once `chunks == maxChunks`.  Returns the flushed chunks
in order and the final stream position (`stream.pos()`).

`fuel` bounds the number of iterations; every iteration that recurses has
read a nonempty word and strictly advanced `pos`, so any
`fuel ≥ text.length - pos` gives the loop's true result
(`chunkStreamGo_fuel_irrel`); the fuel-0 fallback can then only be reached
with `pos ≥ text.length`, where it coincides with the end-of-stream exit. -/
def chunkStreamGo (isSp : Char → Bool) (text : List Char) (chunkSize : Int) (maxChunks : Nat) :
    Nat → Nat → List (List Char) → Nat → Nat → List (List (List Char)) × Nat
  | 0, pos, words, _, _ => ((if words = [] then [] else [words]), pos)
  | fuel + 1, pos, words, charCount, chunks =>
    let r := readWord isSp text pos
    if r.1 = [] then
      -- `stream >> word` read nothing: status is ReadPastEnd, flush and stop
      ((if words = [] then [] else [words]), r.2)
    else
      let charCount2 := charCount + r.1.length
      let words2 := words ++ [r.1]
      if (charCount2 : Int) + words2.length - 1 ≥ chunkSize then
        -- flush `words2` as one chunk (addChunk + appendChunk in the C++)
        if 0 < maxChunks ∧ chunks + 1 = maxChunks then
          ([words2], r.2)
        else
          let rest := chunkStreamGo isSp text chunkSize maxChunks fuel r.2 [] 0 (chunks + 1)
          (words2 :: rest.1, rest.2)
      else
        chunkStreamGo isSp text chunkSize maxChunks fuel r.2 words2 charCount2 chunks

/-- `Database::chunkStream` on a character stream starting at `startPos`:
the produced chunk sequence and the returned stream position. -/
def chunkStream (isSp : Char → Bool) (text : List Char) (chunkSize : Int) (maxChunks : Nat)
    (startPos : Nat) : List (List (List Char)) × Nat :=
  chunkStreamGo isSp text chunkSize maxChunks text.length startPos [] 0 0

/-- Any two sufficient fuels give the same loop result. -/
theorem chunkStreamGo_fuel_irrel (isSp : Char → Bool) (text : List Char) (chunkSize : Int)
    (maxChunks : Nat) :
    ∀ f g pos words charCount chunks, text.length ≤ pos + f → text.length ≤ pos + g →
      chunkStreamGo isSp text chunkSize maxChunks f pos words charCount chunks
        = chunkStreamGo isSp text chunkSize maxChunks g pos words charCount chunks := by
  intro f
  induction f with
  | zero =>
    intro g pos words charCount chunks hf hg
    cases g with
    | zero => rfl
    | succ g' =>
      have hpos : text.length ≤ pos := by omega
      have hnil : (readWord isSp text pos).1 = [] := by
        have hdrop : text.drop pos = [] := List.drop_eq_nil_of_le hpos
        simp [readWord, hdrop]
      have hpos2 : (readWord isSp text pos).2 = pos := by
        have hdrop : text.drop pos = [] := List.drop_eq_nil_of_le hpos
        simp [readWord, hdrop]
      simp [chunkStreamGo, hnil, hpos2]
  | succ f' ih =>
    intro g pos words charCount chunks hf hg
    cases g with
    | zero =>
      have hpos : text.length ≤ pos := by omega
      have hnil : (readWord isSp text pos).1 = [] := by
        have hdrop : text.drop pos = [] := List.drop_eq_nil_of_le hpos
        simp [readWord, hdrop]
      have hpos2 : (readWord isSp text pos).2 = pos := by
        have hdrop : text.drop pos = [] := List.drop_eq_nil_of_le hpos
        simp [readWord, hdrop]
      simp [chunkStreamGo, hnil, hpos2]
    | succ g' =>
      by_cases hnil : (readWord isSp text pos).1 = []
      · simp [chunkStreamGo, hnil]
      · have hlt : pos < (readWord isSp text pos).2 := readWord_pos_lt isSp text pos hnil
        have hf' : text.length ≤ (readWord isSp text pos).2 + f' := by omega
        have hg' : text.length ≤ (readWord isSp text pos).2 + g' := by omega
        simp only [chunkStreamGo, hnil, if_false]
        rw [ih g' _ [] 0 (chunks + 1) hf' hg', ih g' _ (words ++ [(readWord isSp text pos).1])
          (charCount + (readWord isSp text pos).1.length) chunks hf' hg']

/-- Whitespace class used for the concrete examples (plain space). -/
def spaceSep : Char → Bool := fun c => c = ' '

theorem sumLens_append (a : List (List Char)) (w : List Char) :
    sumLens (a ++ [w]) = sumLens a + w.length := by
  simp [sumLens]

theorem sumLens_dropLast_le (c : List (List Char)) : sumLens c.dropLast ≤ sumLens c := by
  by_cases h : c = []
  · simp [h]
  · conv_rhs => rw [← List.dropLast_append_getLast h]
    rw [sumLens_append]
    omega

/-- A nonempty accumulator that was strictly under budget satisfies the
amended per-chunk bound when flushed. -/
theorem budget_flush (chunkSize : Int) (words : List (List Char)) (hne : words ≠ [])
    (h : (sumLens words : Int) + words.length - 1 < chunkSize) :
    words.length = 1 ∨ (sumLens words.dropLast : Int) + words.length - 2 < chunkSize := by
  right
  have h1 : sumLens words.dropLast ≤ sumLens words := sumLens_dropLast_le words
  have h2 : 0 < words.length := List.length_pos.mpr hne
  omega

/-- Loop invariant of `chunkStream`: at the head of each iteration
`charCount` is the sum of the accumulated word lengths and, unless the
accumulator is empty, `charCount + words.size() - 1` is still strictly
below the budget (otherwise the previous iteration would have flushed).
Hence every flushed chunk either is a single word or consists of a
strictly-under-budget word list plus the one word whose arrival made the
count reach or exceed the budget. -/
theorem chunkStreamGo_budget (isSp : Char → Bool) (text : List Char) (chunkSize : Int)
    (maxChunks : Nat) :
    ∀ fuel pos words charCount chunks, charCount = sumLens words →
      (words = [] ∨ (charCount : Int) + words.length - 1 < chunkSize) →
      ∀ c ∈ (chunkStreamGo isSp text chunkSize maxChunks fuel pos words charCount chunks).1,
        c.length = 1 ∨ (sumLens c.dropLast : Int) + c.length - 2 < chunkSize := by
  intro fuel
  induction fuel with
  | zero =>
    intro pos words charCount chunks hcc hinv c hc
    simp only [chunkStreamGo] at hc
    by_cases hw : words = []
    · simp [hw] at hc
    · simp only [if_neg hw, List.mem_singleton] at hc
      subst hc
      rcases hinv with h | h
      · exact absurd h hw
      · exact budget_flush chunkSize c hw (by omega)
  | succ f' ih =>
    intro pos words charCount chunks hcc hinv c hc
    simp only [chunkStreamGo] at hc
    by_cases hnil : (readWord isSp text pos).1 = []
    · simp only [if_pos hnil] at hc
      by_cases hw : words = []
      · simp [hw] at hc
      · simp only [if_neg hw, List.mem_singleton] at hc
        subst hc
        rcases hinv with h | h
        · exact absurd h hw
        · exact budget_flush chunkSize c hw (by omega)
    · simp only [if_neg hnil] at hc
      -- the flushed chunk in both flush branches
      have hflushed : ∀ hcw : c = words ++ [(readWord isSp text pos).1],
          c.length = 1 ∨ (sumLens c.dropLast : Int) + c.length - 2 < chunkSize := by
        intro hcw
        subst hcw
        by_cases hw : words = []
        · left; simp [hw]
        · right
          rw [List.dropLast_concat, List.length_append]
          rcases hinv with h | h
          · exact absurd h hw
          · simp only [List.length_singleton]
            push_cast
            omega
      by_cases hge : (((charCount + (readWord isSp text pos).1.length : Nat) : Int)
          + (words ++ [(readWord isSp text pos).1]).length - 1 ≥ chunkSize)
      · simp only [if_pos hge] at hc
        by_cases hbrk : 0 < maxChunks ∧ chunks + 1 = maxChunks
        · simp only [if_pos hbrk, List.mem_singleton] at hc
          exact hflushed hc
        · simp only [if_neg hbrk, List.mem_cons] at hc
          rcases hc with hc | hc
          · exact hflushed hc
          · exact ih _ [] 0 (chunks + 1) (by simp [sumLens]) (Or.inl rfl) c hc
      · simp only [if_neg hge] at hc
        refine ih _ (words ++ [(readWord isSp text pos).1])
          (charCount + (readWord isSp text pos).1.length) chunks ?_ ?_ c hc
        · rw [sumLens_append, hcc]
        · right
          omega

/-- Claim C1, as stated, is false: `chunkStream` flushes only after the
word that made `charCount + words.size() - 1` reach or exceed the budget
has already been appended, so a multi-word chunk can exceed the budget.
With budget 10 the input "abc defgh ij" yields the single three-word chunk
"abc defgh ij" whose `sum(wordLengths) + (wordCount - 1) = 10 + 2 = 12 > 10`. -/
theorem claim_C1_counterexample :
    ¬ (∀ c ∈ (chunkStream spaceSep "abc defgh ij".toList 10 0 0).1,
        (sumLens c : Int) + c.length - 1 ≤ 10 ∨ c.length = 1) := by
  decide

/-- Claim C1 (amended): every chunk emitted by `chunkStream` either
contains exactly one word, or its words minus the last one satisfy the
strict budget `sum(wordLengths) + (wordCount - 1) < B`; i.e. a chunk is
closed upon (not before) adding the first word that makes it reach or
exceed the budget, so it can overshoot `B` by at most the last word's
length plus one separator. -/
theorem claim_C1_theorem (isSp : Char → Bool) (text : List Char) (chunkSize : Int)
    (maxChunks : Nat) (startPos : Nat) :
    ∀ c ∈ (chunkStream isSp text chunkSize maxChunks startPos).1,
      c.length = 1 ∨ (sumLens c.dropLast : Int) + c.length - 2 < chunkSize :=
  chunkStreamGo_budget isSp text chunkSize maxChunks text.length startPos [] 0 0
    (by simp [sumLens]) (Or.inl rfl)

/-- Witness for `claim_C1_theorem` at a concrete input: the one chunk
produced from "abc defgh ij" at budget 10. -/
theorem claim_C1_witness :
    ([['a','b','c'],['d','e','f','g','h'],['i','j']] : List (List Char)).length = 1 ∨
      (sumLens ([['a','b','c'],['d','e','f','g','h'],['i','j']] : List (List Char)).dropLast : Int)
        + ([['a','b','c'],['d','e','f','g','h'],['i','j']] : List (List Char)).length - 2 < 10 :=
  claim_C1_theorem spaceSep "abc defgh ij".toList 10 0 0 _ (by decide)

/-- Running the loop from a position at or past the end of the stream with
an empty accumulator produces no chunks. -/
theorem chunkStreamGo_end (isSp : Char → Bool) (text : List Char) (chunkSize : Int)
    (maxChunks : Nat) (f pos c : Nat) (h : text.length ≤ pos) :
    (chunkStreamGo isSp text chunkSize maxChunks f pos [] 0 c).1 = [] := by
  cases f with
  | zero => simp [chunkStreamGo]
  | succ f' =>
    have hdrop : text.drop pos = [] := List.drop_eq_nil_of_le h
    have hnil : (readWord isSp text pos).1 = [] := by simp [readWord, hdrop]
    simp [chunkStreamGo, hnil]

/-- With no `maxChunks` cap the chunk counter does not influence the run. -/
theorem chunkStreamGo_counter (isSp : Char → Bool) (text : List Char) (chunkSize : Int) :
    ∀ f pos words charCount c c',
      chunkStreamGo isSp text chunkSize 0 f pos words charCount c
        = chunkStreamGo isSp text chunkSize 0 f pos words charCount c' := by
  intro f
  induction f with
  | zero => intro pos words charCount c c'; rfl
  | succ f' ih =>
    intro pos words charCount c c'
    by_cases hnil : (readWord isSp text pos).1 = []
    · simp [chunkStreamGo, hnil]
    · have hb : ¬ (0 < (0 : Nat) ∧ c + 1 = 0) := by omega
      have hb' : ¬ (0 < (0 : Nat) ∧ c' + 1 = 0) := by omega
      simp only [chunkStreamGo, if_neg hnil, if_neg hb, if_neg hb']
      split_ifs
      · rw [ih _ _ _ (c + 1) (c' + 1)]
      · rw [ih _ _ _ c c']

/-- Stopping a `chunkStream` run once `maxChunks = k` chunks have been
flushed and then running an uncapped pass from the returned position
yields, in total, exactly the chunks of one uncapped pass: the flush
resets the accumulator, so the returned position is a clean resume point. -/
theorem chunkStreamGo_resume (isSp : Char → Bool) (text : List Char) (chunkSize : Int)
    (k : Nat) (hk : 0 < k) :
    ∀ f pos words charCount c, c < k → text.length ≤ pos + f →
      (chunkStreamGo isSp text chunkSize k f pos words charCount c).1
        ++ (chunkStreamGo isSp text chunkSize 0 text.length
              ((chunkStreamGo isSp text chunkSize k f pos words charCount c).2) [] 0 0).1
        = (chunkStreamGo isSp text chunkSize 0 f pos words charCount c).1 := by
  intro f
  induction f with
  | zero =>
    intro pos words charCount c hc hsuf
    have hend := chunkStreamGo_end isSp text chunkSize 0 text.length pos 0 (by omega)
    simp [chunkStreamGo, hend]
  | succ f' ih =>
    intro pos words charCount c hc hsuf
    by_cases hnil : (readWord isSp text pos).1 = []
    · have hge := readWord_nil_ge isSp text pos hnil
      have hend := chunkStreamGo_end isSp text chunkSize 0 text.length
        ((readWord isSp text pos).2) 0 hge
      simp [chunkStreamGo, hnil, hend]
    · have hlt := readWord_pos_lt isSp text pos hnil
      have hb0 : ¬ (0 < (0 : Nat) ∧ c + 1 = 0) := by omega
      simp only [chunkStreamGo, if_neg hnil, if_neg hb0]
      split_ifs with hge2 hbrk
      · -- flush and stop: the capped side breaks, the uncapped side recurses
        have hsuf' : text.length ≤ (readWord isSp text pos).2 + f' := by omega
        have h1 := chunkStreamGo_fuel_irrel isSp text chunkSize 0 text.length f'
          ((readWord isSp text pos).2) [] 0 0 (by omega) hsuf'
        have h2 := chunkStreamGo_counter isSp text chunkSize f'
          ((readWord isSp text pos).2) [] 0 0 (c + 1)
        simp only [List.singleton_append, h1, h2]
      · -- flush and continue on both sides
        have hc' : c + 1 < k := by
          rcases Nat.lt_or_ge (c + 1) k with h | h
          · exact h
          · exact absurd ⟨hk, by omega⟩ hbrk
        have hsuf' : text.length ≤ (readWord isSp text pos).2 + f' := by omega
        have := ih ((readWord isSp text pos).2) [] 0 (c + 1) hc' hsuf'
        simp only [List.cons_append, this]
      · -- no flush: same accumulator on both sides
        have hsuf' : text.length ≤ (readWord isSp text pos).2 + f' := by omega
        exact ih ((readWord isSp text pos).2) (words ++ [(readWord isSp text pos).1])
          (charCount + (readWord isSp text pos).1.length) c hc hsuf'

/-- Claim C8: chunking a document in two slices — a first pass capped at
`maxChunks = k` chunks, then an uncapped pass resumed from the stream
position returned by the first — produces the same total chunk sequence
as one uncapped pass (database.cpp:896, 1216-1217, 1245-1249). -/
theorem claim_C8_theorem (isSp : Char → Bool) (text : List Char) (chunkSize : Int)
    (k : Nat) (startPos : Nat) (hk : 0 < k) :
    (chunkStream isSp text chunkSize k startPos).1
      ++ (chunkStream isSp text chunkSize 0 ((chunkStream isSp text chunkSize k startPos).2)).1
      = (chunkStream isSp text chunkSize 0 startPos).1 :=
  chunkStreamGo_resume isSp text chunkSize k hk text.length startPos [] 0 0 hk (by omega)

/-- Witness for `claim_C8_theorem`: "ab cd ef" at budget 2, first slice
capped at one chunk (which stops at position 2), resumed uncapped. -/
theorem claim_C8_witness :
    (chunkStream spaceSep "ab cd ef".toList 2 1 0).1
      ++ (chunkStream spaceSep "ab cd ef".toList 2 0
            ((chunkStream spaceSep "ab cd ef".toList 2 1 0).2)).1
      = (chunkStream spaceSep "ab cd ef".toList 2 0 0).1 :=
  claim_C8_theorem spaceSep "ab cd ef".toList 2 1 0 (by decide)

/-! ## Embedding batch dispatch

`s_batchSize` (database.cpp:80), `Database::appendChunk` /
`Database::sendChunkList` (database.cpp:912-923), the remainder flush in
`Database::scheduleNext` (database.cpp:826-828), and the slicing loop of
`Database::scheduleUncompletedEmbeddings` (database.cpp:1365-1368).
Chunks are represented by their ids; `sent` records, in order, the batches
passed to `generateAsyncEmbeddings`. -/

def s_batchSize : Nat := 100

structure EmbBatcher where
  chunkList : List Nat
  sent : List (List Nat)
deriving DecidableEq

/-- `Database::sendChunkList`: submit `m_chunkList` as one asynchronous
unit of work and clear it. -/
def sendChunkList (st : EmbBatcher) : EmbBatcher :=
  { chunkList := [], sent := st.sent ++ [st.chunkList] }

/-- `Database::appendChunk`: append, then flush once the list has reached
`s_batchSize` entries. -/
def appendChunk (st : EmbBatcher) (c : Nat) : EmbBatcher :=
  let st2 : EmbBatcher := { st with chunkList := st.chunkList ++ [c] }
  if s_batchSize ≤ st2.chunkList.length then sendChunkList st2 else st2

def appendChunks (st : EmbBatcher) (cs : List Nat) : EmbBatcher := cs.foldl appendChunk st

/-- The remainder flush in `Database::scheduleNext`: when a folder's queue
drains, any leftover chunks are sent as a final (short) batch. -/
def flushRemaining (st : EmbBatcher) : EmbBatcher :=
  if st.chunkList = [] then st else sendChunkList st

/-- `Database::scheduleUncompletedEmbeddings`: uncompleted chunks are
re-sent in slices `chunkList.mid(i, s_batchSize)` for
`i = 0, s_batchSize, 2*s_batchSize, ...`. -/
def scheduleBatches (l : List Nat) : List (List Nat) :=
  (List.range ((l.length + s_batchSize - 1) / s_batchSize)).map
    (fun j => (l.drop (j * s_batchSize)).take s_batchSize)

theorem appendChunks_inv :
    ∀ (cs : List Nat) (st : EmbBatcher), st.chunkList.length < s_batchSize →
      (∀ b ∈ st.sent, b.length ≤ s_batchSize) →
      (appendChunks st cs).chunkList.length < s_batchSize ∧
        ∀ b ∈ (appendChunks st cs).sent, b.length ≤ s_batchSize := by
  intro cs
  induction cs with
  | nil => intro st h1 h2; exact ⟨h1, h2⟩
  | cons c rest ih =>
    intro st h1 h2
    have hstep : (appendChunk st c).chunkList.length < s_batchSize ∧
        ∀ b ∈ (appendChunk st c).sent, b.length ≤ s_batchSize := by
      simp only [appendChunk]
      split_ifs with hfull
    -- flushed: the sent batch has exactly the acc length, ≤ s_batchSize
      · constructor
        · simp [sendChunkList, s_batchSize]
        · intro b hb
          simp only [sendChunkList, List.mem_append, List.mem_singleton] at hb
          rcases hb with hb | hb
          · exact h2 b hb
          · subst hb; simp only [List.length_append, List.length_singleton]; omega
      · refine ⟨?_, h2⟩
        simp only [List.length_append, List.length_singleton] at hfull ⊢
        omega
    exact ih (appendChunk st c) hstep.1 hstep.2

/-- Claim C9: every batch handed to the embedding backend contains at most
`s_batchSize = 100` chunks — both the batches flushed by `appendChunk` (or
the final remainder flush) and the slices of rescheduled uncompleted
chunks. -/
theorem claim_C9_theorem (cs l b : List Nat)
    (hb : b ∈ (flushRemaining (appendChunks ⟨[], []⟩ cs)).sent ∨ b ∈ scheduleBatches l) :
    b.length ≤ s_batchSize := by
  rcases hb with hb | hb
  · have hinv := appendChunks_inv cs ⟨[], []⟩ (by simp [s_batchSize]) (by simp)
    simp only [flushRemaining] at hb
    split_ifs at hb with hemp
    · exact hinv.2 b hb
    · simp only [sendChunkList, List.mem_append, List.mem_singleton] at hb
      rcases hb with hb | hb
      · exact hinv.2 b hb
      · subst hb; omega
  · simp only [scheduleBatches, List.mem_map] at hb
    obtain ⟨j, _, hj⟩ := hb
    subst hj
    simp [List.length_take]

/-- Witness for `claim_C9_theorem`: three appended chunks drain as one
final short batch. -/
theorem claim_C9_witness : ([1, 2, 3] : List Nat).length ≤ s_batchSize :=
  claim_C9_theorem [1, 2, 3] [] [1, 2, 3] (Or.inl (by decide))

/-! ## VectorIndex / ChunkStore consistency

`Database::handleEmbeddingsGenerated` (database.cpp:925-970): for each
result whose chunk row still exists (`selectFileForChunk`), add the vector
to the in-memory index (`m_embeddings->add`, which may fail); collect the
ids whose add succeeded; if any, `m_embeddings->save()` (durable flush of
the index file) and only then open one transaction that sets
`has_embedding = 1` for exactly those ids and commits.

The durable state is `durableIndex` (the saved index file) and
`hasEmbedding` (committed rows; SQLite commits atomically, so the
individual `UPDATE`s inside the transaction become durable only at the
`commit()`, modelled as one `commitFlags` event).  A crash loses the
in-memory index, which is reloaded from the durable file on restart. -/

structure EmbSysState where
  volatileIndex : List Int
  durableIndex : List Int
  hasEmbedding : List Int
  dbChunks : List Int
deriving DecidableEq

inductive EmbEv
  | volAdd (c : Int)
  | indexFlush
  | commitFlags (cs : List Int)
deriving DecidableEq

def embStep (st : EmbSysState) : EmbEv → EmbSysState
  | .volAdd c => { st with volatileIndex := st.volatileIndex ++ [c] }
  | .indexFlush => { st with durableIndex := st.volatileIndex }
  | .commitFlags cs => { st with hasEmbedding := st.hasEmbedding ++ cs }

def embRun (st : EmbSysState) (evs : List EmbEv) : EmbSysState := evs.foldl embStep st

/-- A crash: the in-memory index is lost and reloaded from the durable
file; committed database state survives. -/
def embCrash (st : EmbSysState) : EmbSysState := { st with volatileIndex := st.durableIndex }

/-- The ids the handler marks: results whose chunk row still exists and
whose `m_embeddings->add` succeeded (`addOk` is the oracle for the latter). -/
def chunksToAdd (st : EmbSysState) (addOk : Int → Bool) (batch : List Int) : List Int :=
  batch.filter (fun c => st.dbChunks.contains c && addOk c)

/-- The durable-state-relevant event sequence of
`Database::handleEmbeddingsGenerated`: the successful adds, then — only if
at least one vector was added — the index flush followed by the one
transaction committing the `has_embedding` flags. -/
def handleEmbeddingsEvents (st : EmbSysState) (addOk : Int → Bool) (batch : List Int) :
    List EmbEv :=
  (chunksToAdd st addOk batch).map EmbEv.volAdd ++
    (if chunksToAdd st addOk batch = [] then []
     else [EmbEv.indexFlush, EmbEv.commitFlags (chunksToAdd st addOk batch)])

/-- State invariant: every chunk marked `has_embedding = 1` has its vector
in the durable index file, and also in the loaded in-memory index. -/
def EmbInv (st : EmbSysState) : Prop :=
  (∀ c ∈ st.hasEmbedding, c ∈ st.durableIndex) ∧
    (∀ c ∈ st.hasEmbedding, c ∈ st.volatileIndex)

theorem embRun_volAdds (st : EmbSysState) (l : List Int) :
    embRun st (l.map EmbEv.volAdd) = { st with volatileIndex := st.volatileIndex ++ l } := by
  induction l generalizing st with
  | nil => simp [embRun]
  | cons c rest ih =>
    simp only [List.map_cons, embRun, List.foldl_cons]
    have h := ih (embStep st (.volAdd c))
    simp only [embRun] at h
    rw [h]
    simp [embStep]

/-- Claim C2: if the invariant holds when a completed embedding batch
arrives, then after any prefix of the handler's durable-state events —
i.e. crashing at any point, including between the index flush and the
flag-commit — every chunk row with `hasEmbedding = true` has its vector
durably present in the vector index. -/
theorem claim_C2_theorem (st : EmbSysState) (addOk : Int → Bool) (batch : List Int) (n : Nat)
    (hinv : EmbInv st) :
    ∀ c ∈ (embCrash (embRun st ((handleEmbeddingsEvents st addOk batch).take n))).hasEmbedding,
      c ∈ (embCrash (embRun st
            ((handleEmbeddingsEvents st addOk batch).take n))).durableIndex := by
  intro c
  by_cases hA : chunksToAdd st addOk batch = []
  · simp only [handleEmbeddingsEvents, hA, List.map_nil, List.nil_append, if_true,
      reduceIte, List.take_nil, embRun, List.foldl_nil, embCrash]
    exact hinv.1 c
  · have htake : (handleEmbeddingsEvents st addOk batch).take n
        = ((chunksToAdd st addOk batch).take n).map EmbEv.volAdd ++
          ([EmbEv.indexFlush, EmbEv.commitFlags (chunksToAdd st addOk batch)].take
            (n - (chunksToAdd st addOk batch).length)) := by
      simp [handleEmbeddingsEvents, if_neg hA, List.take_append_eq_append_take,
        List.map_take]
    rw [htake]
    have hsplit : embRun st (((chunksToAdd st addOk batch).take n).map EmbEv.volAdd ++
          ([EmbEv.indexFlush, EmbEv.commitFlags (chunksToAdd st addOk batch)].take
            (n - (chunksToAdd st addOk batch).length)))
        = embRun (embRun st (((chunksToAdd st addOk batch).take n).map EmbEv.volAdd))
            ([EmbEv.indexFlush, EmbEv.commitFlags (chunksToAdd st addOk batch)].take
              (n - (chunksToAdd st addOk batch).length)) := by
      simp [embRun]
    rw [hsplit, embRun_volAdds]
    rcases hm : n - (chunksToAdd st addOk batch).length with _ | m'
    · -- crash during the adds: nothing durable changed
      simp only [List.take_zero, embRun, List.foldl_nil, embCrash]
      exact hinv.1 c
    · have hAn : (chunksToAdd st addOk batch).take n = chunksToAdd st addOk batch :=
        List.take_of_length_le (by omega)
      rcases m' with _ | m''
      · -- crash after the index flush, before the flag commit
        simp only [List.take_succ_cons, List.take_zero, embRun, List.foldl_cons,
          List.foldl_nil, embStep, embCrash, hAn]
        intro hc
        exact List.mem_append_left _ (hinv.2 c hc)
      · -- the flush and the commit both happened
        have h2 : [EmbEv.indexFlush, EmbEv.commitFlags (chunksToAdd st addOk batch)].take
            (m'' + 1 + 1) = [EmbEv.indexFlush, EmbEv.commitFlags (chunksToAdd st addOk batch)] :=
          List.take_of_length_le (by simp)
        rw [h2]
        simp only [embRun, List.foldl_cons, List.foldl_nil, embStep, embCrash, hAn]
        intro hc
        rcases List.mem_append.mp hc with hc | hc
        · exact List.mem_append_left _ (hinv.2 c hc)
        · exact List.mem_append_right _ hc

/-- Witness for `claim_C2_theorem`: a batch `[7]` processed from a
consistent state, crashing after all three events — chunk 7, now marked,
is in the durable index. -/
theorem claim_C2_witness :
    7 ∈ (embCrash (embRun ⟨[5], [5], [5], [5, 7]⟩
        ((handleEmbeddingsEvents ⟨[5], [5], [5], [5, 7]⟩ (fun _ => true) [7]).take 3))).durableIndex :=
  claim_C2_theorem ⟨[5], [5], [5], [5, 7]⟩ (fun _ => true) [7] 3
    ⟨by decide, by decide⟩ 7 (by decide)

/-! ## Folder removal

`Database::removeFolder` (database.cpp:1497-1534) and
`Database::removeFolderInternal` (database.cpp:1536-1593), with the SQL
helpers `removeCollectionFolder` (DELETE_COLLECTION_FOLDER_SQL, which
deletes the one `collection_items` row and RETURNs the number of
`collection_items` rows still referencing the folder) and
`sqlPruneCollections` (PRUNE_COLLECTIONS_SQL).  Tables are lists of rows:
collections `(id, name)`, collection_items `(collection_id, folder_id)`,
folders `(id, path)`, documents `(id, folder_id)`, chunks
`(id, document_id)`.  `Option` models the C++ error paths (`-1` /
`false`), on which `removeFolder` rolls the transaction back. -/

structure LdDb where
  collections : List (Int × String)
  collectionItems : List (Int × Int)
  folders : List (Int × String)
  documents : List (Int × Int)
  chunks : List (Int × Int)
deriving DecidableEq

/-- The scalar subquery `(select id from collections where name = :name)`. -/
def collectionIdByName (db : LdDb) (name : String) : Option Int :=
  (db.collections.find? (fun c => decide (c.2 = name))).map (fun c => c.1)

/-- The `collection_items` rows surviving the DELETE (all rows except the
(collection, folder) pair being unlinked). -/
def keptItems (db : LdDb) (cid folder_id : Int) : List (Int × Int) :=
  db.collectionItems.filter (fun it => !(decide (it.1 = cid) && decide (it.2 = folder_id)))

/-- `removeCollectionFolder` (database.cpp:534-543): delete the
`collection_items` row for (collection, folder) and report how many
`collection_items` rows still reference the folder; `none` models the
`-1` error return (no row deleted, so the RETURNING produces no row). -/
def removeCollectionFolder (db : LdDb) (name : String) (folder_id : Int) :
    Option (LdDb × Nat) :=
  match collectionIdByName db name with
  | none => none
  | some cid =>
    if (db.collectionItems.filter
          (fun it => decide (it.1 = cid) && decide (it.2 = folder_id))).isEmpty then
      none
    else some ({ db with collectionItems := keptItems db cid folder_id },
      (keptItems db cid folder_id).countP (fun it => decide (it.2 = folder_id)))

/-- `sqlPruneCollections`: delete every collection with no remaining
`collection_items` association. -/
def sqlPruneCollections (db : LdDb) : LdDb :=
  let kept := db.collections.filter
    (fun c => db.collectionItems.any (fun it => decide (it.1 = c.1)))
  { db with collections := kept }

/-- The document-id collection of the cascade in
`Database::removeFolderInternal` (database.cpp:1563-1567): the ids of all
documents of the folder. -/
def cascadeDocIds (db2 : LdDb) (folder_id : Int) : List Int :=
  (db2.documents.filter (fun d => decide (d.2 = folder_id))).map (fun d => d.1)

/-- The chunk ids collected into `chunksToRemove` by the cascade
(database.cpp:1570-1573): per document, the ids of its chunks. -/
def cascadeRemoved (db2 : LdDb) (folder_id : Int) : List Int :=
  (cascadeDocIds db2 folder_id).flatMap
    (fun did => (db2.chunks.filter (fun c => decide (c.2 = did))).map (fun c => c.1))

/-- The cascade itself (database.cpp:1560-1592): delete the chunks of the
folder's documents, the documents, and the folder row; return the updated
tables and the collected chunk ids. -/
def cascadeDelete (db2 : LdDb) (folder_id : Int) : LdDb × List Int :=
  let keptChunks := db2.chunks.filter (fun c => !((cascadeDocIds db2 folder_id).contains c.2))
  let keptDocs := db2.documents.filter (fun d => !(decide (d.2 = folder_id)))
  let keptFolders := db2.folders.filter (fun f => !(decide (f.1 = folder_id)))
  ({ db2 with chunks := keptChunks, documents := keptDocs, folders := keptFolders },
    cascadeRemoved db2 folder_id)

/-- `Database::removeFolderInternal`: unlink the folder from the
collection, prune orphaned collections, and — only if no
`collection_items` row still references the folder — cascade-delete the
folder's documents, chunks and row. -/
def removeFolderInternal (db : LdDb) (name : String) (folder_id : Int) :
    Option (LdDb × List Int) :=
  match removeCollectionFolder db name folder_id with
  | none => none
  | some (db1, nRemaining) =>
    let db2 := sqlPruneCollections db1
    if nRemaining ≠ 0 then some (db2, [])
    else some (cascadeDelete db2 folder_id)

/-- `Database::removeFolder`: resolve the path to a folder id; on success
of `removeFolderInternal` commit and apply the collected vector-index
removals (then save); on failure roll back, leaving everything unchanged.
`vec` is the set of chunk ids present in the vector index. -/
def removeFolder (db : LdDb) (vec : List Int) (name path : String) : LdDb × List Int :=
  match (db.folders.find? (fun f => decide (f.2 = path))).map (fun f => f.1) with
  | none => (db, vec)
  | some fid =>
    match removeFolderInternal db name fid with
    | none => (db, vec)
    | some (db2, removed) => (db2, vec.filter (fun c => !(removed.contains c)))

theorem removeCollectionFolder_val (db : LdDb) (name : String) (fid cid : Int)
    (hcid : collectionIdByName db name = some cid) :
    removeCollectionFolder db name fid
      = (if (db.collectionItems.filter
              (fun it => decide (it.1 = cid) && decide (it.2 = fid))).isEmpty then none
         else some ({ db with collectionItems := keptItems db cid fid },
            (keptItems db cid fid).countP (fun it => decide (it.2 = fid)))) := by
  rw [removeCollectionFolder, hcid]

theorem removeFolderInternal_val (db : LdDb) (name : String) (fid : Int) (db1 : LdDb)
    (nRem : Nat) (hrc : removeCollectionFolder db name fid = some (db1, nRem)) :
    removeFolderInternal db name fid
      = (if nRem ≠ 0 then some (sqlPruneCollections db1, [])
         else some (cascadeDelete (sqlPruneCollections db1) fid)) := by
  rw [removeFolderInternal, hrc]

/-- Claim C5: on a successful removal of folder `path` from collection
`name`, the folder row is deleted exactly when zero `collection_items`
rows still reference the folder; in that case all of the folder's
documents, their chunks and their vector-index entries are deleted and
every surviving collection row still has at least one folder association;
otherwise documents and chunks are untouched. -/
theorem claim_C5_theorem (db : LdDb) (vec : List Int) (name path : String) (fid : Int)
    (db2 : LdDb) (removed : List Int)
    (hfind : (db.folders.find? (fun f => decide (f.2 = path))).map (fun f => f.1) = some fid)
    (hok : removeFolderInternal db name fid = some (db2, removed)) :
    (removeFolder db vec name path = (db2, vec.filter (fun c => !(removed.contains c)))) ∧
    ((¬ ∃ it ∈ db2.collectionItems, it.2 = fid) ↔ ∀ f ∈ db2.folders, f.1 ≠ fid) ∧
    ((¬ ∃ it ∈ db2.collectionItems, it.2 = fid) →
      (∀ d ∈ db2.documents, d.2 ≠ fid) ∧
      (∀ d ∈ db.documents, d.2 = fid → ∀ c ∈ db.chunks, c.2 = d.1 →
        c ∉ db2.chunks ∧ c.1 ∈ removed ∧
          c.1 ∉ (removeFolder db vec name path).2) ∧
      (∀ col ∈ db2.collections, ∃ it ∈ db2.collectionItems, it.1 = col.1)) ∧
    ((∃ it ∈ db2.collectionItems, it.2 = fid) →
      db2.documents = db.documents ∧ db2.chunks = db.chunks ∧ removed = [] ∧
        ∃ f ∈ db2.folders, f.1 = fid) := by
  have hok' := hok
  -- the folder row named by `hfind`
  obtain ⟨frow, hfrow, hfid⟩ : ∃ f, db.folders.find? (fun f => decide (f.2 = path)) = some f
      ∧ f.1 = fid := by
    rcases hf : db.folders.find? (fun f => decide (f.2 = path)) with _ | f
    · rw [hf] at hfind; simp at hfind
    · rw [hf] at hfind; simp at hfind; exact ⟨f, hf, hfind⟩
  have hfmem : frow ∈ db.folders := List.mem_of_find?_eq_some hfrow
  have hgoal1 : removeFolder db vec name path
      = (db2, vec.filter (fun c => !(removed.contains c))) := by
    simp only [removeFolder, hfind, hok']
  -- unpack removeCollectionFolder
  rcases hrc : removeCollectionFolder db name fid with _ | ⟨db1, nRem⟩
  · rw [removeFolderInternal, hrc] at hok
    exact absurd hok (by simp)
  · obtain ⟨cid, hcid⟩ : ∃ cid, collectionIdByName db name = some cid := by
      rcases h : collectionIdByName db name with _ | cid
      · have htmp := hrc
        rw [removeCollectionFolder, h] at htmp
        exact absurd htmp (by simp)
      · exact ⟨cid, rfl⟩
    obtain ⟨hdb1, hnrem⟩ : ({ db with collectionItems := keptItems db cid fid } : LdDb) = db1
        ∧ (keptItems db cid fid).countP (fun it => decide (it.2 = fid)) = nRem := by
      have htmp := hrc
      rw [removeCollectionFolder_val db name fid cid hcid] at htmp
      rcases hemp : (db.collectionItems.filter
          (fun it => decide (it.1 = cid) && decide (it.2 = fid))).isEmpty with _ | _
      · rw [hemp] at htmp
        simp only [Bool.false_eq_true, if_false, Option.some.injEq, Prod.mk.injEq] at htmp
        exact htmp
      · rw [hemp] at htmp
        simp at htmp
    have hdb1items : db1.collectionItems = keptItems db cid fid := by rw [← hdb1]
    rw [removeFolderInternal_val db name fid db1 nRem hrc] at hok
    have hI : (sqlPruneCollections db1).collectionItems = keptItems db cid fid := by
      rw [← hdb1]; rfl
    have hF : (sqlPruneCollections db1).folders = db.folders := by rw [← hdb1]; rfl
    have hD : (sqlPruneCollections db1).documents = db.documents := by rw [← hdb1]; rfl
    have hC : (sqlPruneCollections db1).chunks = db.chunks := by rw [← hdb1]; rfl
    split_ifs at hok with hn
    · -- the folder is still referenced: keep it and its content
      rw [Option.some.injEq] at hok
      have hdb2 : sqlPruneCollections db1 = db2 := congrArg Prod.fst hok
      have hrem : ([] : List Int) = removed := congrArg Prod.snd hok
      subst hdb2; subst hrem
      have hex : ∃ it ∈ keptItems db cid fid, it.2 = fid := by
        by_contra h
        push_neg at h
        apply hn
        rw [← hnrem, List.countP_eq_zero]
        intro a ha
        simp only [decide_eq_true_eq]
        exact h a ha
      refine ⟨hgoal1, ?_, ?_, ?_⟩
      · rw [hI, hF]
        constructor
        · intro h
          exact absurd hex h
        · intro h
          exact absurd hfid (h frow hfmem)
      · rw [hI]
        intro h
        exact absurd hex h
      · intro _
        refine ⟨hD, hC, rfl, ?_⟩
        rw [hF]
        exact ⟨frow, hfmem, hfid⟩
    · -- last reference removed: cascade delete
      push_neg at hn
      rw [Option.some.injEq] at hok
      have hdb2 : (cascadeDelete (sqlPruneCollections db1) fid).1 = db2 :=
        congrArg Prod.fst hok
      have hrem : cascadeRemoved (sqlPruneCollections db1) fid = removed :=
        congrArg Prod.snd hok
      subst hdb2; subst hrem
      have hnone : ∀ it ∈ keptItems db cid fid, it.2 ≠ fid := by
        have h0 : (keptItems db cid fid).countP (fun it => decide (it.2 = fid)) = 0 := by
          rw [hnrem]; exact hn
        rw [List.countP_eq_zero] at h0
        intro it hit
        have := h0 it hit
        simpa using this
      have hDI : (cascadeDelete (sqlPruneCollections db1) fid).1.collectionItems
          = (sqlPruneCollections db1).collectionItems := rfl
      have hDF : (cascadeDelete (sqlPruneCollections db1) fid).1.folders
          = (sqlPruneCollections db1).folders.filter (fun f => !(decide (f.1 = fid))) := rfl
      have hDD : (cascadeDelete (sqlPruneCollections db1) fid).1.documents
          = (sqlPruneCollections db1).documents.filter (fun d => !(decide (d.2 = fid))) := rfl
      have hDC : (cascadeDelete (sqlPruneCollections db1) fid).1.chunks
          = (sqlPruneCollections db1).chunks.filter
              (fun c => !((cascadeDocIds (sqlPruneCollections db1) fid).contains c.2)) := rfl
      have hDCol : (cascadeDelete (sqlPruneCollections db1) fid).1.collections
          = (sqlPruneCollections db1).collections := rfl
      refine ⟨hgoal1, ?_, ?_, ?_⟩
      · rw [hDI, hI, hDF]
        constructor
        · intro _ f hf
          obtain ⟨-, hpred⟩ := List.mem_filter.mp hf
          simpa using hpred
        · intro _
          rintro ⟨it, hit, h2⟩
          exact hnone it hit h2
      · intro _
        refine ⟨?_, ?_, ?_⟩
        · intro d hd
          rw [hDD] at hd
          obtain ⟨-, hpred⟩ := List.mem_filter.mp hd
          simpa using hpred
        · intro d hd hdfid c hc hcd
          have hdid : d.1 ∈ cascadeDocIds (sqlPruneCollections db1) fid := by
            rw [cascadeDocIds, hD]
            exact List.mem_map.mpr ⟨d, List.mem_filter.mpr ⟨hd, by simp [hdfid]⟩, rfl⟩
          have hcrem : c.1 ∈ cascadeRemoved (sqlPruneCollections db1) fid := by
            rw [cascadeRemoved]
            refine List.mem_flatMap.mpr ⟨d.1, hdid, ?_⟩
            rw [hC]
            exact List.mem_map.mpr ⟨c, List.mem_filter.mpr ⟨hc, by simp [hcd]⟩, rfl⟩
          refine ⟨?_, hcrem, ?_⟩
          · intro hmem
            rw [hDC] at hmem
            obtain ⟨-, hpred⟩ := List.mem_filter.mp hmem
            have hcont : (cascadeDocIds (sqlPruneCollections db1) fid).contains c.2 = true := by
              rw [hcd]
              exact List.elem_eq_true_of_mem hdid
            rw [hcont] at hpred
            exact absurd hpred (by simp)
          · rw [hgoal1]
            intro hmem
            obtain ⟨-, hpred⟩ := List.mem_filter.mp hmem
            have hcont : (cascadeRemoved (sqlPruneCollections db1) fid).contains c.1 = true :=
              List.elem_eq_true_of_mem hcrem
            rw [hcont] at hpred
            exact absurd hpred (by simp)
        · intro col hcol
          rw [hDCol] at hcol
          have hSc : (sqlPruneCollections db1).collections
              = db1.collections.filter
                  (fun c => db1.collectionItems.any (fun it => decide (it.1 = c.1))) := rfl
          rw [hSc] at hcol
          obtain ⟨-, hany⟩ := List.mem_filter.mp hcol
          obtain ⟨it, hit, hiteq⟩ := List.any_eq_true.mp hany
          rw [hdb1items] at hit
          rw [hDI, hI]
          exact ⟨it, hit, of_decide_eq_true hiteq⟩
      · intro hexx
        rw [hDI, hI] at hexx
        obtain ⟨it, hmem, hit⟩ := hexx
        exact absurd hit (hnone it hmem)

/-- One-collection, one-folder database for the `claim_C5_theorem`
witness: collection "Work" (id 1) holds folder 10 at path "/a", which has
document 5 with chunk 7; the vector index holds chunks 7 and 8. -/
def demoDb5 : LdDb := ⟨[(1, "Work")], [(1, 10)], [(10, "/a")], [(5, 10)], [(7, 5)]⟩

/-- The state after removing folder "/a" from "Work": everything cascades
away and chunk 7 is queued for vector removal. -/
def demoDb5Out : LdDb := ⟨[], [], [], [], []⟩

/-- Witness for `claim_C5_theorem`: removing the only folder of "Work"
deletes the folder, its document, its chunk, prunes the collection, and
drops chunk 7 from the vector index. -/
theorem claim_C5_witness :
    (removeFolder demoDb5 [7, 8] "Work" "/a"
        = (demoDb5Out, ([7, 8] : List Int).filter (fun c => !(([7] : List Int).contains c)))) ∧
    ((¬ ∃ it ∈ demoDb5Out.collectionItems, it.2 = 10) ↔
      ∀ f ∈ demoDb5Out.folders, f.1 ≠ 10) ∧
    ((¬ ∃ it ∈ demoDb5Out.collectionItems, it.2 = 10) →
      (∀ d ∈ demoDb5Out.documents, d.2 ≠ 10) ∧
      (∀ d ∈ demoDb5.documents, d.2 = 10 → ∀ c ∈ demoDb5.chunks, c.2 = d.1 →
        c ∉ demoDb5Out.chunks ∧ c.1 ∈ ([7] : List Int) ∧
          c.1 ∉ (removeFolder demoDb5 [7, 8] "Work" "/a").2) ∧
      (∀ col ∈ demoDb5Out.collections, ∃ it ∈ demoDb5Out.collectionItems, it.1 = col.1)) ∧
    ((∃ it ∈ demoDb5Out.collectionItems, it.2 = 10) →
      demoDb5Out.documents = demoDb5.documents ∧ demoDb5Out.chunks = demoDb5.chunks ∧
        ([7] : List Int) = [] ∧ ∃ f ∈ demoDb5Out.folders, f.1 = 10) :=
  claim_C5_theorem demoDb5 [7, 8] "Work" "/a" 10 demoDb5Out [7] (by decide) (by decide)

/-! ## Retrieval: `selectChunk`, SELECT_CHUNKS_SQL, `Database::retrieveFromDB`

`retrieveFromDB` (database.cpp:1623-1674) embeds the query, asks the
vector index for the nearest chunk ids, and calls `selectChunk`
(database.cpp:266-276), which first builds the comma-separated id string
starting from `chunk_ids[0]`, then prepares SELECT_CHUNKS_SQL
(database.cpp:150-158) and executes it; on a failed prepare it returns
false and `retrieveFromDB` returns with zero results. -/

/-- The chunk-id string of `selectChunk` (database.cpp:268-270):
`QString::number(chunk_ids[0])` followed by ",id" for each remaining id.
The initial `chunk_ids[0]` on a `std::vector` is an out-of-bounds access
when the list is empty — there is no defined value, modelled as `none`. -/
def chunkIdsString (chunk_ids : List Int) : Option String :=
  match chunk_ids with
  | [] => none
  | c0 :: rest => some (rest.foldl (fun s c => s ++ "," ++ toString c) (toString c0))

/-- Column lists of the v2 schema created by INIT_DB_SQL
(database.cpp:82-133). -/
def chunksColumns : List String :=
  ["id", "document_id", "chunk_text", "file", "title", "author", "subject", "keywords",
   "page", "line_from", "line_to", "words", "tokens", "has_embedding"]

def documentsColumns : List String := ["id", "folder_id", "document_time", "document_path"]

def foldersColumns : List String := ["id", "folder_path"]

def collectionsColumns : List String := ["id", "name", "last_update_time", "embedding_model"]

def collectionItemsColumns : List String := ["collection_id", "folder_id"]

def schemaColumns (t : String) : List String :=
  if t = "chunks" then chunksColumns
  else if t = "documents" then documentsColumns
  else if t = "folders" then foldersColumns
  else if t = "collections" then collectionsColumns
  else if t = "collection_items" then collectionItemsColumns
  else []

/-- The qualified column references occurring in SELECT_CHUNKS_SQL
(database.cpp:150-158), in textual order: the selected columns, the join
conditions `chunks.document_id = documents.id`,
`documents.folder_id = folders.id`, `folders.id = collections.folder_id`,
and the WHERE columns. -/
def selectChunksColumnRefs : List (String × String) :=
  [("chunks", "id"), ("documents", "document_time"), ("chunks", "chunk_text"),
   ("chunks", "file"), ("chunks", "title"), ("chunks", "author"), ("chunks", "page"),
   ("chunks", "line_from"), ("chunks", "line_to"), ("chunks", "document_id"),
   ("documents", "id"), ("documents", "folder_id"), ("folders", "id"),
   ("collections", "folder_id"), ("collections", "name")]

/-- SQLite name resolution at prepare time: every qualified column
reference must exist in its table's schema; the first unresolvable one
fails the prepare with "no such column". -/
def prepareSelectChunks : Except String Unit :=
  match selectChunksColumnRefs.find? (fun p => !((schemaColumns p.1).contains p.2)) with
  | some p => Except.error ("no such column: " ++ p.1 ++ "." ++ p.2)
  | none => Except.ok ()

/-- `selectChunk`: build the id string (undefined on an empty id list —
`none`), then prepare SELECT_CHUNKS_SQL; `some (error e)` means the
prepare failed and no row is ever produced, so `retrieveFromDB` appends
nothing to its result list. -/
def selectChunk (collection_names : List String) (chunk_ids : List Int) :
    Option (Except String Unit) :=
  match chunkIdsString chunk_ids with
  | none => none
  | some _ =>
    match prepareSelectChunks with
    | Except.error e => some (Except.error e)
    | Except.ok _ =>
      some (Except.ok ())

/-- Modelled from the spec (§4.5 wording, for the divergence comparison):
keep exactly the ids whose chunk belongs to a document belonging to a
folder belonging (via `collection_items`) to one of the requested
collections.  The code's SELECT_CHUNKS_SQL instead joins on the
nonexistent column `collections.folder_id`. -/
def specFilterChunkIds (db : LdDb) (ids : List Int) (names : List String) : List Int :=
  ids.filter (fun cid => db.chunks.any (fun ch => decide (ch.1 = cid) &&
    db.documents.any (fun d => decide (d.1 = ch.2) &&
      db.folders.any (fun f => decide (f.1 = d.2) &&
        db.collectionItems.any (fun it => decide (it.2 = f.1) &&
          db.collections.any (fun col => decide (col.1 = it.1) && names.contains col.2))))))

/-- The retrieval scenario database: collection "Work" (id 1) holds folder
10 with document 100 and chunks 1, 2, 3; collection "Personal" (id 2)
holds folder 20 with document 200 and chunks 4, 5. -/
def demoDb3 : LdDb :=
  ⟨[(1, "Work"), (2, "Personal")], [(1, 10), (2, 20)], [(10, "/w"), (20, "/p")],
   [(100, 10), (200, 20)], [(1, 100), (2, 100), (3, 100), (4, 200), (5, 200)]⟩

/-- Claim C3 (code bug): SELECT_CHUNKS_SQL references
`collections.folder_id`, a column the v2 schema created in the same file
does not have (the v2 join table is `collection_items`), so the prepare
fails and every retrieval returns zero results; the intended filter — the
spec's "chunk of a document of a folder of a requested collection" — would
return exactly the three "Work" chunks of the five nearest ids in the
scenario. -/
theorem claim_C3_theorem :
    prepareSelectChunks = Except.error "no such column: collections.folder_id" ∧
    selectChunk ["Work"] [1, 2, 3, 4, 5]
      = some (Except.error "no such column: collections.folder_id") ∧
    specFilterChunkIds demoDb3 [1, 2, 3, 4, 5] ["Work"] = [1, 2, 3] := by
  refine ⟨rfl, rfl, by decide⟩

/-- Claim C10 (code bug): with an empty nearest-neighbour result the very
first step of `selectChunk` evaluates `chunk_ids[0]` on an empty vector —
an out-of-bounds access with no defined value — instead of returning zero
results; on a nonempty list the id string is built normally. -/
theorem claim_C10_theorem :
    chunkIdsString [] = none ∧ selectChunk ["Work"] [] = none ∧
    chunkIdsString [3, 4] = some "3,4" := by
  refine ⟨rfl, rfl, by decide⟩

/-! ## Binary-content detection and the scan queue

`BinaryDetectingFile` (database.cpp:39-76) fails any read whose delivered
block contains a disallowed control byte (and every read after it), and
records `binarySeen`.  `Database::scanQueue` (database.cpp:1086-1254, text
branch) looks the document up by path, skips it when it is unchanged,
otherwise deletes its old chunks (queueing their ids for vector removal),
updates/inserts the document row and chunks the content with
`maxChunks = 100`; when `chunkStream` returns a negative position with
`binarySeen`, it purges the chunks recorded under `existing_id`.
`Database::scanQueueBatch` (database.cpp:1064-1084) wraps a time-boxed run
of `scanQueue` calls in one transaction, applies the accumulated vector
removals after the loop, commits, and saves the index once if any removal
occurred. -/

/-- The control-byte test of `BinaryDetectingFile::checkData`
(database.cpp:61-66): `c < 0x07 || (c >= 0x0E && c < 0x1B) ||
(c >= 0x1C && c < 0x20)`. -/
def isBinaryByte (c : Nat) : Bool :=
  c < 0x07 || (0x0E ≤ c && c < 0x1B) || (0x1C ≤ c && c < 0x20)

/-- `stream >> word` over a `BinaryDetectingFile`: the device delivers
only the first `avail` characters — the read in which the first
disallowed control byte appears fails wholesale (checkData returns -1 for
the entire block) and every later read fails too, so `avail` is the
amount delivered by the preceding successful reads; for a clean file
`avail ≥ text.length` and reads never fail.  A tokenizer step that would
need data at or beyond `avail` while the file has more content triggers a
device read that fails, modelled as `none`. -/
def readWordB (isSp : Char → Bool) (text : List Char) (avail : Nat) (pos : Nat) :
    Option (List Char × Nat) :=
  let r := readWord isSp (text.take avail) pos
  if avail < text.length ∧ avail ≤ r.2 then none else some r

/-- `chunkStream` over a `BinaryDetectingFile`: as `chunkStreamGo`, but a
failed read aborts the loop (stream status ReadFailed while not atEnd, so
the C++ returns -1 — modelled by a `none` final position); the chunks
flushed before the failure have already been inserted and are returned. -/
def chunkStreamBGo (isSp : Char → Bool) (text : List Char) (avail : Nat) (chunkSize : Int)
    (maxChunks : Nat) :
    Nat → Nat → List (List Char) → Nat → Nat → List (List (List Char)) × Option Nat
  | 0, pos, words, _, _ => ((if words = [] then [] else [words]), some pos)
  | fuel + 1, pos, words, charCount, chunks =>
    match readWordB isSp text avail pos with
    | none => ([], none)
    | some r =>
      if r.1 = [] then
        ((if words = [] then [] else [words]), some r.2)
      else
        let charCount2 := charCount + r.1.length
        let words2 := words ++ [r.1]
        if (charCount2 : Int) + words2.length - 1 ≥ chunkSize then
          if 0 < maxChunks ∧ chunks + 1 = maxChunks then
            ([words2], some r.2)
          else
            let rest := chunkStreamBGo isSp text avail chunkSize maxChunks fuel r.2 [] 0
              (chunks + 1)
            (words2 :: rest.1, rest.2)
        else
          chunkStreamBGo isSp text avail chunkSize maxChunks fuel r.2 words2 charCount2 chunks

def chunkStreamB (isSp : Char → Bool) (text : List Char) (avail : Nat) (chunkSize : Int)
    (maxChunks : Nat) (startPos : Nat) : List (List (List Char)) × Option Nat :=
  chunkStreamBGo isSp text avail chunkSize maxChunks text.length startPos [] 0 0

structure DocRow where
  id : Int
  path : String
  time : Int
deriving DecidableEq

structure ChunkRowS where
  id : Int
  docId : Int
deriving DecidableEq

/-- The relational state the text-scan path touches: the documents table,
the chunks table (id and owning document), and the autoincrement ids. -/
structure ScanDb where
  documents : List DocRow
  chunks : List ChunkRowS
  nextDocId : Int
  nextChunkId : Int
deriving DecidableEq

/-- One queued unit of scan work (`DocumentInfo`): the stat data plus the
content the reads will deliver (`avail` marks where a binary byte makes
reads fail; `avail ≥ content.length` for a clean file). -/
structure DocInfo where
  path : String
  mtime : Int
  content : List Char
  avail : Nat
  currentlyProcessing : Bool
  currentPosition : Nat
deriving DecidableEq

inductive BatchEv
  | txnBegin
  | dbWrite (tag : String)
  | vecRemove (c : Int)
  | txnCommit
  | vecSave
deriving DecidableEq

def isDbWrite : BatchEv → Bool
  | .dbWrite _ => true
  | _ => false

def isVecRemove : BatchEv → Bool
  | .vecRemove _ => true
  | _ => false

/-- Result of one `scanQueue` call: the updated tables, the chunk ids
appended to `chunksToRemove`, the document re-enqueued at the front of the
queue (when the slice did not finish it), and the tags of the SQL writes
performed. -/
structure ScanStep where
  db : ScanDb
  removals : List Int
  requeue : Option DocInfo
  writes : List String
deriving DecidableEq

/-- The text-document branch of `Database::scanQueue`
(database.cpp:1086-1254): look the path up; if the document exists, is not
mid-scan and its mtime is unchanged, do nothing (skip); otherwise delete
its previous chunks (queueing their ids), update or insert the document
row with the current mtime, run `chunkStream` with `maxChunks = 100` from
the resume position (every flushed chunk becomes a row of the document),
and on a binary-detected read failure purge the chunks recorded under
`existing_id` (-1 for a first-time document — the freshly inserted rows
live under the new id and are not purged); an unfinished document is
re-enqueued with `currentlyProcessing = true` and the reached position. -/
def scanTextDoc (isSp : Char → Bool) (chunkSize : Int) (db : ScanDb) (info : DocInfo) :
    ScanStep :=
  let found := db.documents.find? (fun d => decide (d.path = info.path))
  let existingId : Int := (found.map (fun r => r.id)).getD (-1)
  let existingTime : Int := (found.map (fun r => r.time)).getD (-1)
  if existingId ≠ -1 ∧ info.currentlyProcessing = false ∧ info.mtime = existingTime then
    ⟨db, [], none, []⟩
  else
    let rems1 := if existingId ≠ -1 ∧ info.currentlyProcessing = false then
        (db.chunks.filter (fun c => decide (c.docId = existingId))).map (fun c => c.id)
      else []
    let chunks1 := if existingId ≠ -1 ∧ info.currentlyProcessing = false then
        db.chunks.filter (fun c => !(decide (c.docId = existingId)))
      else db.chunks
    let evs1 : List String := if existingId ≠ -1 ∧ info.currentlyProcessing = false then
        ["deleteChunks"] else []
    let db1 := { db with chunks := chunks1 }
    let documentId : Int :=
      if info.currentlyProcessing = true then existingId
      else if existingId ≠ -1 then existingId
      else db1.nextDocId
    let updatedDocs := db1.documents.map
      (fun d => if d.path = info.path then { d with time := info.mtime } else d)
    let insertedDocs := db1.documents ++ [⟨db1.nextDocId, info.path, info.mtime⟩]
    let db2 :=
      if info.currentlyProcessing = true then db1
      else if existingId ≠ -1 then { db1 with documents := updatedDocs }
      else { db1 with documents := insertedDocs, nextDocId := db1.nextDocId + 1 }
    let evs2 : List String :=
      if info.currentlyProcessing = true then []
      else if existingId ≠ -1 then ["updateDocument"] else ["addDocument"]
    let r := chunkStreamB isSp info.content info.avail chunkSize 100 info.currentPosition
    let newIds := (List.range r.1.length).map (fun i => db2.nextChunkId + (i : Int))
    let insChunks := newIds.map (fun i => (⟨i, documentId⟩ : ChunkRowS))
    let newNext := db2.nextChunkId + (r.1.length : Int)
    let db3 := { db2 with chunks := db2.chunks ++ insChunks, nextChunkId := newNext }
    let evs3 := newIds.map (fun _ => "addChunk")
    match r.2 with
    | none =>
      -- binary content detected (database.cpp:1229-1238)
      let purged := (db3.chunks.filter (fun c => decide (c.docId = existingId))).map
        (fun c => c.id)
      let chunks4 := db3.chunks.filter (fun c => !(decide (c.docId = existingId)))
      ⟨{ db3 with chunks := chunks4 }, rems1 ++ purged, none,
        evs1 ++ evs2 ++ evs3 ++ ["deleteChunks"]⟩
    | some pos =>
      if info.currentPosition < info.content.length then
        ⟨db3, rems1, some { info with currentPosition := pos, currentlyProcessing := true },
          evs1 ++ evs2 ++ evs3⟩
      else
        ⟨db3, rems1, none, evs1 ++ evs2 ++ evs3⟩

/-- Result of one time-boxed batch: final tables, the accumulated
`chunksToRemove`, the documents left for the next slice, and the event
trace of the batch. -/
structure BatchResult where
  db : ScanDb
  removals : List Int
  leftover : List DocInfo
  tags : List String
deriving DecidableEq

/-- The `while (!m_docsToScan.isEmpty() && timer.elapsed() < 100)` loop:
the wall-clock cutoff is external nondeterminism, so the batch is modelled
as processing each document of the given queue once, accumulating
removals and write tags in order and collecting re-enqueued documents. -/
def scanQueueFold (isSp : Char → Bool) (chunkSize : Int) :
    ScanDb → List DocInfo → BatchResult
  | db, [] => ⟨db, [], [], []⟩
  | db, i :: rest =>
    let s := scanTextDoc isSp chunkSize db i
    let t := scanQueueFold isSp chunkSize s.db rest
    ⟨t.db, s.removals ++ t.removals, s.requeue.toList ++ t.leftover, s.writes ++ t.tags⟩

/-- `Database::scanQueueBatch` (database.cpp:1064-1084): `transaction()`;
the scan loop (SQL writes only); then every accumulated vector removal is
applied to the in-memory index; then `commit()`; then, if any removal
occurred, the index is saved to disk once. -/
def scanQueueBatch (isSp : Char → Bool) (chunkSize : Int) (db : ScanDb)
    (queue : List DocInfo) : BatchResult × List BatchEv :=
  let f := scanQueueFold isSp chunkSize db queue
  (f, [BatchEv.txnBegin] ++ f.tags.map BatchEv.dbWrite
    ++ f.removals.map BatchEv.vecRemove ++ [BatchEv.txnCommit]
    ++ (if f.removals = [] then [] else [BatchEv.vecSave]))

/-- An unchanged document (existing row, same mtime, not mid-scan) is
skipped: no table change, no removal, no requeue, no SQL write
(database.cpp:1116-1121). -/
theorem scanTextDoc_skip (isSp : Char → Bool) (chunkSize : Int) (db : ScanDb) (info : DocInfo)
    (r : DocRow) (hfind : db.documents.find? (fun d => decide (d.path = info.path)) = some r)
    (hid : r.id ≠ -1) (hcp : info.currentlyProcessing = false) (ht : r.time = info.mtime) :
    scanTextDoc isSp chunkSize db info = ⟨db, [], none, []⟩ := by
  rw [scanTextDoc]
  simp only [hfind, Option.map_some', Option.getD_some]
  rw [if_pos ⟨hid, hcp, ht.symm⟩]

theorem scanQueueFold_skip (isSp : Char → Bool) (chunkSize : Int) :
    ∀ (queue : List DocInfo) (db : ScanDb),
      (∀ i ∈ queue, i.currentlyProcessing = false ∧
        ∃ r, db.documents.find? (fun d => decide (d.path = i.path)) = some r ∧
          r.id ≠ -1 ∧ r.time = i.mtime) →
      scanQueueFold isSp chunkSize db queue = ⟨db, [], [], []⟩ := by
  intro queue
  induction queue with
  | nil => intro db h; rfl
  | cons i rest ih =>
    intro db h
    obtain ⟨hcp, r, hfind, hid, ht⟩ := h i (List.mem_cons_self i rest)
    rw [scanQueueFold]
    rw [scanTextDoc_skip isSp chunkSize db i r hfind hid hcp ht]
    rw [ih db (fun j hj => h j (List.mem_cons_of_mem i hj))]
    rfl

/-- Claim C7: scanning a queue of unchanged documents (each present in the
documents table with an equal stored mtime, none mid-scan) changes no
table, inserts no chunk row, accumulates no vector removal, re-enqueues
nothing, and the batch performs no SQL write, no vector-index removal and
no index save — its trace is just the empty transaction. -/
theorem claim_C7_theorem (isSp : Char → Bool) (chunkSize : Int) (db : ScanDb)
    (queue : List DocInfo)
    (h : ∀ i ∈ queue, i.currentlyProcessing = false ∧
      ∃ r, db.documents.find? (fun d => decide (d.path = i.path)) = some r ∧
        r.id ≠ -1 ∧ r.time = i.mtime) :
    scanQueueBatch isSp chunkSize db queue
      = (⟨db, [], [], []⟩, [BatchEv.txnBegin, BatchEv.txnCommit]) := by
  rw [scanQueueBatch, scanQueueFold_skip isSp chunkSize queue db h]
  rfl

/-- Witness for `claim_C7_theorem`: re-scanning one indexed, unchanged
document. -/
theorem claim_C7_witness :
    scanQueueBatch spaceSep 2 ⟨[⟨1, "a.txt", 5⟩], [⟨1, 1⟩], 2, 2⟩
        [⟨"a.txt", 5, "xy".toList, 2, false, 0⟩]
      = (⟨⟨[⟨1, "a.txt", 5⟩], [⟨1, 1⟩], 2, 2⟩, [], [], []⟩,
        [BatchEv.txnBegin, BatchEv.txnCommit]) :=
  claim_C7_theorem spaceSep 2 ⟨[⟨1, "a.txt", 5⟩], [⟨1, 1⟩], 2, 2⟩
    [⟨"a.txt", 5, "xy".toList, 2, false, 0⟩]
    (by
      intro i hi
      simp only [List.mem_singleton] at hi
      subst hi
      exact ⟨rfl, ⟨1, "a.txt", 5⟩, by decide, by decide, rfl⟩)

set_option maxRecDepth 40000 in
/-- Claim C4 (code bug), evaluated at the failing input: byte 0x01 is in
the detected ranges (which match the claim exactly, first two conjuncts);
scanning a first-time text document whose reads deliver "ab cd " and then
fail on the block holding the 0x01 byte does abort with the binary signal
(`none` position), records the document with its current mtime — but the
two chunks inserted before the failure survive under the new document id,
because the purge targets `existing_id = -1`: the scan does not yield zero
chunks. -/
theorem claim_C4_theorem :
    isBinaryByte 0x01 = true ∧
    (∀ c : Fin 256, isBinaryByte c.val
      = (decide (c.val ≤ 0x06) || (decide (0x0E ≤ c.val) && decide (c.val ≤ 0x1A))
          || (decide (0x1C ≤ c.val) && decide (c.val ≤ 0x1F)))) ∧
    (chunkStreamB spaceSep "ab cd \x01x".toList 6 2 100 0).2 = none ∧
    (scanTextDoc spaceSep 2 ⟨[], [], 1, 1⟩ ⟨"b.txt", 3, "ab cd \x01x".toList, 6, false, 0⟩).db.chunks
      = [⟨1, 1⟩, ⟨2, 1⟩] ∧
    (scanTextDoc spaceSep 2 ⟨[], [], 1, 1⟩ ⟨"b.txt", 3, "ab cd \x01x".toList, 6, false, 0⟩).db.documents
      = [⟨1, "b.txt", 3⟩] ∧
    (scanTextDoc spaceSep 2 ⟨[], [], 1, 1⟩ ⟨"b.txt", 3, "ab cd \x01x".toList, 6, false, 0⟩).removals
      = [] := by
  refine ⟨by decide, by decide, by decide, by decide, by decide, by decide⟩

/-- The database and queue of the C6 counterexample: one already-indexed
document whose mtime changed, so the re-scan queues its old chunk (id 1)
for vector removal. -/
def demoScanDb6 : ScanDb := ⟨[⟨1, "a.txt", 5⟩], [⟨1, 1⟩], 2, 2⟩

def demoQueue6 : List DocInfo := [⟨"a.txt", 7, "xy".toList, 2, false, 0⟩]

/-- Claim C6, as stated, is false: the accumulated vector-index removals
are applied to the in-memory index *before* `commit()`
(database.cpp:1075-1078), not after it — in the trace of a batch that
removes chunk 1, a `vecRemove` event occurs before the `txnCommit`. -/
theorem claim_C6_counterexample :
    ¬ (∀ e ∈ ((scanQueueBatch spaceSep 2 demoScanDb6 demoQueue6).2.takeWhile
        (fun e => !(decide (e = BatchEv.txnCommit)))), isVecRemove e = false) := by
  decide

/-- Claim C6 (amended): a batch is one transaction — the trace is exactly
`txnBegin`, the per-document SQL writes, then every accumulated
vector-index removal (applied after the scan loop but *before* the
commit), then `txnCommit`, then the index save — which happens after the
commit, at most once, and exactly when at least one removal occurred. -/
theorem claim_C6_theorem (isSp : Char → Bool) (chunkSize : Int) (db : ScanDb)
    (queue : List DocInfo) :
    ∃ w : List BatchEv, (∀ e ∈ w, isDbWrite e = true) ∧
      (scanQueueBatch isSp chunkSize db queue).2
        = [BatchEv.txnBegin] ++ w
          ++ (scanQueueBatch isSp chunkSize db queue).1.removals.map BatchEv.vecRemove
          ++ [BatchEv.txnCommit]
          ++ (if (scanQueueBatch isSp chunkSize db queue).1.removals = [] then []
              else [BatchEv.vecSave]) ∧
      (scanQueueBatch isSp chunkSize db queue).2.count BatchEv.vecSave
        = (if (scanQueueBatch isSp chunkSize db queue).1.removals = [] then 0 else 1) := by
  refine ⟨(scanQueueFold isSp chunkSize db queue).tags.map BatchEv.dbWrite, ?_, rfl, ?_⟩
  · intro e he
    obtain ⟨t, -, ht⟩ := List.mem_map.mp he
    rw [← ht]
    rfl
  · have h1 : ((scanQueueFold isSp chunkSize db queue).tags.map BatchEv.dbWrite).count
        BatchEv.vecSave = 0 := by
      rw [List.count_eq_zero]
      intro hmem
      obtain ⟨t, -, ht⟩ := List.mem_map.mp hmem
      exact BatchEv.noConfusion ht
    have h2 : ((scanQueueFold isSp chunkSize db queue).removals.map BatchEv.vecRemove).count
        BatchEv.vecSave = 0 := by
      rw [List.count_eq_zero]
      intro hmem
      obtain ⟨t, -, ht⟩ := List.mem_map.mp hmem
      exact BatchEv.noConfusion ht
    by_cases hrem : (scanQueueFold isSp chunkSize db queue).removals = []
    · simp [scanQueueBatch, hrem, List.count_append, h1, h2]
    · simp [scanQueueBatch, hrem, List.count_append, h1, h2]

/-- Witness for `claim_C6_theorem` at the counterexample batch. -/
theorem claim_C6_witness :
    ∃ w : List BatchEv, (∀ e ∈ w, isDbWrite e = true) ∧
      (scanQueueBatch spaceSep 2 demoScanDb6 demoQueue6).2
        = [BatchEv.txnBegin] ++ w
          ++ (scanQueueBatch spaceSep 2 demoScanDb6 demoQueue6).1.removals.map BatchEv.vecRemove
          ++ [BatchEv.txnCommit]
          ++ (if (scanQueueBatch spaceSep 2 demoScanDb6 demoQueue6).1.removals = [] then []
              else [BatchEv.vecSave]) ∧
      (scanQueueBatch spaceSep 2 demoScanDb6 demoQueue6).2.count BatchEv.vecSave
        = (if (scanQueueBatch spaceSep 2 demoScanDb6 demoQueue6).1.removals = [] then 0
           else 1) :=
  claim_C6_theorem spaceSep 2 demoScanDb6 demoQueue6

end LocalDocs
